import Mathlib

/-!
Shallow embedding of the Intell search backend (`Backend/app.py` and
`Backend/crawler.py`): query cleaning, the safety classifier, the
instant-answer resolver (including the restricted Python expression
fragment it evaluates), search-request construction, related-topics
post-processing, the `/index-page` endpoint, and the breadth-first
crawler (link extraction, fetch-and-index, and the BFS step).

Wall-clock timestamps, network transport, IEEE-754 float values and the
HTML/PDF parsing libraries are outside the embedding; they enter only as
abstract inputs (environment functions) or are noted at the definition
that elides them.
-/

namespace Intell

/-- Character-wise lowercasing, mirroring Python `str.lower` on the
ASCII fragment the code manipulates. -/
def pyLower (s : String) : String := String.mk (s.data.map Char.toLower)

/-- Python `str.strip`: drop leading and trailing whitespace. -/
def pyStrip (s : String) : String :=
  String.mk (((s.data.dropWhile Char.isWhitespace).reverse.dropWhile Char.isWhitespace).reverse)

/-- Does the second list start with the first? -/
def startsWithCh : List Char → List Char → Bool
  | [], _ => true
  | _ :: _, [] => false
  | a :: as, b :: bs => a = b && startsWithCh as bs

/-- Python `s.startswith(pre)`. -/
def strStartsWith (s pre : String) : Bool := startsWithCh pre.data s.data

/-- Python `needle in hay` substring test. -/
def strContains (hay needle : String) : Bool :=
  hay.data.tails.any fun suf => startsWithCh needle.data suf

/-- Python `s.endswith(suf)`. -/
def strEndsWith (s suf : String) : Bool := startsWithCh suf.data.reverse s.data.reverse

/-- Python slicing `s[:n]`. -/
def strTake (s : String) (n : Nat) : String := String.mk (s.data.take n)

/-- A word character in the sense of the regex `\w` (ASCII fragment). -/
def isWordChar (c : Char) : Bool := c.isAlphanum || c = '_'

/-- Helper for `wordTokens`: accumulates the current run of word characters. -/
def wordTokensAux : List Char → List Char → List String
  | [], acc => if acc.isEmpty then [] else [String.mk acc.reverse]
  | c :: rest, acc =>
    if isWordChar c then wordTokensAux rest (c :: acc)
    else if acc.isEmpty then wordTokensAux rest []
    else String.mk acc.reverse :: wordTokensAux rest []

/-- Python `re.findall(r"\w+", s)`: the maximal runs of word characters. -/
def wordTokens (s : String) : List String := wordTokensAux s.data []

/-- app.py `STOP_WORDS`. -/
def STOP_WORDS : List String :=
  ["a", "the", "is", "in", "to", "of", "and", "for", "on", "at", "by", "an", "be", "this", "that"]

/-- app.py and crawler.py `PROFANITY_LIST`. -/
def PROFANITY_LIST : List String :=
  ["badword1", "badword2", "offensive", "profane", "adult", "explicit"]

/-- app.py `clean_query`: lowercase, tokenize on word boundaries, drop
stop-words, join with single spaces, and require at least 3 characters. -/
def cleanQuery (query : String) : Option String :=
  if query = "" then none
  else
    let q := pyLower query
    let toks := (wordTokens q).filter fun t => ! STOP_WORDS.contains t
    let cleaned := pyStrip (String.intercalate " " toks)
    if cleaned.length < 3 then none else some cleaned

/-- The `search_logs` document persisted by the `/search` endpoint
(the wall-clock `timestamp` field is outside the embedding). -/
structure LogDoc where
  query : String
  rawQuery : String
deriving DecidableEq, Repr

/-- The query-log side effect of `/search`: a log document is indexed
exactly when `clean_query` returns a cleaned string. -/
def searchLogEntry (q : String) : Option LogDoc :=
  (cleanQuery q).map fun c => ⟨c, q⟩

/-- app.py / crawler.py `is_safe_content`: content is safe iff no word of the
profanity lexicon occurs in the lowercased content. -/
def isSafeContent (content : String) : Bool :=
  PROFANITY_LIST.all fun w => ! strContains (pyLower content) w

/-!
The Python expression fragment reachable from `check_instant_answer`,
which runs `eval(q, \x7b"__builtins__": \x7b\x7d\x7d, \x7b\x7d)` on the
lowercased, stripped query.  The fragment covers integer literals,
identifiers, parentheses, unary sign, the binary operators
`+ - * / // % **`, single (non-chained) comparisons, and call suffixes
with zero or one argument.  Floats (both literals and computed values),
strings, chained comparisons, attribute access and multi-argument call
lists are outside the fragment: the parser rejects them, which in the
real code corresponds to inputs this embedding does not cover.
-/

inductive Tok where
  | int (n : Nat)
  | ident (s : String)
  | plus | minus | star | dstar | slash | dslash | percent
  | lparen | rparen
  | lt | le | gt | ge | eqeq | ne
deriving DecidableEq, Repr

/-- Value of a decimal digit run. -/
def digitsToNat (ds : List Char) : Nat := ds.foldl (fun n c => n * 10 + (c.toNat - 48)) 0

/-- Fuel-driven tokenizer for the fragment; `none` is a `SyntaxError`. -/
def tokenizeAux : Nat → List Char → Option (List Tok)
  | 0, _ => none
  | _ + 1, [] => some []
  | fuel + 1, c :: cs =>
    if c.isWhitespace then tokenizeAux fuel cs
    else if c.isDigit then
      let ds := c :: cs.takeWhile Char.isDigit
      let rest := cs.dropWhile Char.isDigit
      if ds.length > 1 && c = '0' then none
      else (tokenizeAux fuel rest).map (Tok.int (digitsToNat ds) :: ·)
    else if c.isAlpha || c = '_' then
      let run := c :: cs.takeWhile isWordChar
      let rest := cs.dropWhile isWordChar
      (tokenizeAux fuel rest).map (Tok.ident (String.mk run) :: ·)
    else
      match c, cs with
      | '*', '*' :: cs' => (tokenizeAux fuel cs').map (Tok.dstar :: ·)
      | '/', '/' :: cs' => (tokenizeAux fuel cs').map (Tok.dslash :: ·)
      | '<', '=' :: cs' => (tokenizeAux fuel cs').map (Tok.le :: ·)
      | '>', '=' :: cs' => (tokenizeAux fuel cs').map (Tok.ge :: ·)
      | '=', '=' :: cs' => (tokenizeAux fuel cs').map (Tok.eqeq :: ·)
      | '!', '=' :: cs' => (tokenizeAux fuel cs').map (Tok.ne :: ·)
      | '*', _ => (tokenizeAux fuel cs).map (Tok.star :: ·)
      | '/', _ => (tokenizeAux fuel cs).map (Tok.slash :: ·)
      | '+', _ => (tokenizeAux fuel cs).map (Tok.plus :: ·)
      | '-', _ => (tokenizeAux fuel cs).map (Tok.minus :: ·)
      | '%', _ => (tokenizeAux fuel cs).map (Tok.percent :: ·)
      | '(', _ => (tokenizeAux fuel cs).map (Tok.lparen :: ·)
      | ')', _ => (tokenizeAux fuel cs).map (Tok.rparen :: ·)
      | '<', _ => (tokenizeAux fuel cs).map (Tok.lt :: ·)
      | '>', _ => (tokenizeAux fuel cs).map (Tok.gt :: ·)
      | _, _ => none

inductive BOp where
  | add | sub | mul | div | floordiv | mod | pow
deriving DecidableEq, Repr

inductive COp where
  | lt | le | gt | ge | eq | ne
deriving DecidableEq, Repr

inductive PyExpr where
  | num (n : Nat)
  | name (s : String)
  | uminus (e : PyExpr)
  | uplus (e : PyExpr)
  | binop (op : BOp) (a b : PyExpr)
  | cmp (op : COp) (a b : PyExpr)
  | call0 (f : PyExpr)
  | call1 (f : PyExpr) (arg : PyExpr)
deriving DecidableEq, Repr

def tokCmpOp : Tok → Option COp
  | .lt => some .lt
  | .le => some .le
  | .gt => some .gt
  | .ge => some .ge
  | .eqeq => some .eq
  | .ne => some .ne
  | _ => none

mutual

/-- Top parsing level: a single (non-chained) comparison. -/
def parseCmpLevel : Nat → List Tok → Option (PyExpr × List Tok)
  | 0, _ => none
  | fuel + 1, ts => do
    let (a, ts₁) ← parseAddLevel fuel ts
    match ts₁ with
    | t :: ts₂ =>
      match tokCmpOp t with
      | some op => do
        let (b, ts₃) ← parseAddLevel fuel ts₂
        pure (PyExpr.cmp op a b, ts₃)
      | none => pure (a, ts₁)
    | [] => pure (a, ts₁)

def parseAddLevel : Nat → List Tok → Option (PyExpr × List Tok)
  | 0, _ => none
  | fuel + 1, ts => do
    let (a, ts₁) ← parseMulLevel fuel ts
    parseAddRest fuel a ts₁

def parseAddRest : Nat → PyExpr → List Tok → Option (PyExpr × List Tok)
  | 0, _, _ => none
  | fuel + 1, a, ts =>
    match ts with
    | .plus :: ts' => do
      let (b, ts₁) ← parseMulLevel fuel ts'
      parseAddRest fuel (.binop .add a b) ts₁
    | .minus :: ts' => do
      let (b, ts₁) ← parseMulLevel fuel ts'
      parseAddRest fuel (.binop .sub a b) ts₁
    | _ => pure (a, ts)

def parseMulLevel : Nat → List Tok → Option (PyExpr × List Tok)
  | 0, _ => none
  | fuel + 1, ts => do
    let (a, ts₁) ← parseUnary fuel ts
    parseMulRest fuel a ts₁

def parseMulRest : Nat → PyExpr → List Tok → Option (PyExpr × List Tok)
  | 0, _, _ => none
  | fuel + 1, a, ts =>
    match ts with
    | .star :: ts' => do
      let (b, ts₁) ← parseUnary fuel ts'
      parseMulRest fuel (.binop .mul a b) ts₁
    | .slash :: ts' => do
      let (b, ts₁) ← parseUnary fuel ts'
      parseMulRest fuel (.binop .div a b) ts₁
    | .dslash :: ts' => do
      let (b, ts₁) ← parseUnary fuel ts'
      parseMulRest fuel (.binop .floordiv a b) ts₁
    | .percent :: ts' => do
      let (b, ts₁) ← parseUnary fuel ts'
      parseMulRest fuel (.binop .mod a b) ts₁
    | _ => pure (a, ts)

def parseUnary : Nat → List Tok → Option (PyExpr × List Tok)
  | 0, _ => none
  | fuel + 1, ts =>
    match ts with
    | .minus :: ts' => do
      let (e, ts₁) ← parseUnary fuel ts'
      pure (PyExpr.uminus e, ts₁)
    | .plus :: ts' => do
      let (e, ts₁) ← parseUnary fuel ts'
      pure (PyExpr.uplus e, ts₁)
    | _ => parsePowLevel fuel ts

/-- Python `**` binds tighter than unary minus on its left and allows a
unary-signed exponent on its right. -/
def parsePowLevel : Nat → List Tok → Option (PyExpr × List Tok)
  | 0, _ => none
  | fuel + 1, ts => do
    let (a, ts₁) ← parseAtom fuel ts
    match ts₁ with
    | .dstar :: ts₂ => do
      let (b, ts₃) ← parseUnary fuel ts₂
      pure (PyExpr.binop .pow a b, ts₃)
    | _ => pure (a, ts₁)

def parseAtom : Nat → List Tok → Option (PyExpr × List Tok)
  | 0, _ => none
  | fuel + 1, ts =>
    match ts with
    | .int n :: ts' => parseCallSuffix fuel (.num n) ts'
    | .ident s :: ts' => parseCallSuffix fuel (.name s) ts'
    | .lparen :: ts' => do
      let (e, ts₁) ← parseCmpLevel fuel ts'
      match ts₁ with
      | .rparen :: ts₂ => parseCallSuffix fuel e ts₂
      | _ => none
    | _ => none

/-- Trailing call suffixes with zero or one argument. -/
def parseCallSuffix : Nat → PyExpr → List Tok → Option (PyExpr × List Tok)
  | 0, _, _ => none
  | fuel + 1, f, ts =>
    match ts with
    | .lparen :: .rparen :: ts' => parseCallSuffix fuel (.call0 f) ts'
    | .lparen :: ts' => do
      let (a, ts₁) ← parseCmpLevel fuel ts'
      match ts₁ with
      | .rparen :: ts₂ => parseCallSuffix fuel (.call1 f a) ts₂
      | _ => none
    | _ => pure (f, ts)

end

/-- Parse a whole query string; leftover tokens are a `SyntaxError`. -/
def pyParse (s : String) : Option PyExpr := do
  let ts ← tokenizeAux (s.data.length + 1) s.data
  match parseCmpLevel (8 * ts.length + 8) ts with
  | some (e, []) => some e
  | _ => none

/-- Runtime values of the evaluated fragment.  `rfloat` records that a
Python float was produced; float values themselves (IEEE 754) are outside
the embedding.  `rdict` is the empty dict that the evaluation environment
binds to the name `__builtins__`. -/
inductive PyVal where
  | rint (n : Int)
  | rbool (b : Bool)
  | rfloat
  | rdict
deriving DecidableEq, Repr

/-- Python arithmetic coerces `bool` to `int`. -/
def PyVal.toIntVal : PyVal → Option Int
  | .rint n => some n
  | .rbool b => some (if b then 1 else 0)
  | _ => none

def PyVal.isNumeric : PyVal → Bool
  | .rint _ => true
  | .rbool _ => true
  | .rfloat => true
  | .rdict => false

/-- Python binary arithmetic on the fragment.  A float operand makes the
result a float (its value is outside the embedding, as is zero-division
against a float divisor); `int / int` is true division producing a float;
division, floor division or modulo by integer zero and `0 ** negative`
raise, i.e. yield `none`, as does any arithmetic on the dict. -/
def evalBin : BOp → PyVal → PyVal → Option PyVal
  | op, a, b =>
    match a.toIntVal, b.toIntVal with
    | some x, some y =>
      match op with
      | .add => some (.rint (x + y))
      | .sub => some (.rint (x - y))
      | .mul => some (.rint (x * y))
      | .div => if y = 0 then none else some .rfloat
      | .floordiv => if y = 0 then none else some (.rint (Int.fdiv x y))
      | .mod => if y = 0 then none else some (.rint (Int.fmod x y))
      | .pow =>
        if y < 0 then (if x = 0 then none else some .rfloat)
        else some (.rint (x ^ y.toNat))
    | _, _ =>
      if a.isNumeric && b.isNumeric then some .rfloat else none

/-- Python comparisons on the fragment.  Ordering the dict against a
number raises `TypeError`; equality between the dict and a number is
`False`, of the dict with itself `True`.  Comparisons involving a float
value depend on the float and are outside the embedding. -/
def evalCmp : COp → PyVal → PyVal → Option PyVal
  | _, .rfloat, _ => none
  | _, _, .rfloat => none
  | .eq, .rdict, .rdict => some (.rbool true)
  | .ne, .rdict, .rdict => some (.rbool false)
  | .eq, .rdict, _ => some (.rbool false)
  | .eq, _, .rdict => some (.rbool false)
  | .ne, .rdict, _ => some (.rbool true)
  | .ne, _, .rdict => some (.rbool true)
  | _, .rdict, _ => none
  | _, _, .rdict => none
  | op, a, b =>
    match a.toIntVal, b.toIntVal with
    | some x, some y =>
      match op with
      | .lt => some (.rbool (decide (x < y)))
      | .le => some (.rbool (decide (x ≤ y)))
      | .gt => some (.rbool (decide (x > y)))
      | .ge => some (.rbool (decide (x ≥ y)))
      | .eq => some (.rbool (decide (x = y)))
      | .ne => some (.rbool (decide (x ≠ y)))
    | _, _ => none

/-- Python unary sign. -/
def evalUn (negate : Bool) : PyVal → Option PyVal
  | .rint n => some (.rint (if negate then -n else n))
  | .rbool b => some (.rint (if negate then -(if b then (1 : Int) else 0) else (if b then 1 else 0)))
  | .rfloat => some .rfloat
  | .rdict => none

/-- Evaluation under `eval` with globals binding only `__builtins__` to an
empty dict and empty locals: every other name raises `NameError`, and no
value of the fragment is callable, so every call raises.  `none` is any
raised exception. -/
def pyEvalE : PyExpr → Option PyVal
  | .num n => some (.rint n)
  | .name s => if s = "__builtins__" then some .rdict else none
  | .uminus e => (pyEvalE e).bind (evalUn true)
  | .uplus e => (pyEvalE e).bind (evalUn false)
  | .binop op a b => (pyEvalE a).bind fun va => (pyEvalE b).bind fun vb => evalBin op va vb
  | .cmp op a b => (pyEvalE a).bind fun va => (pyEvalE b).bind fun vb => evalCmp op va vb
  | .call0 f => (pyEvalE f).bind fun _ => none
  | .call1 f a => (pyEvalE f).bind fun _ => (pyEvalE a).bind fun _ => none

/-- Parse plus evaluate; `none` is any exception swallowed by the bare
`except` in `check_instant_answer`. -/
def pyEvalStr (s : String) : Option PyVal := (pyParse s).bind pyEvalE

/-- Stringified math answers; the rendering of float values is outside
the embedding. -/
inductive MathVal where
  | exactStr (s : String)
  | floatRepr
deriving DecidableEq, Repr

/-- Instant answers.  The time answer carries wall-clock text, outside
the embedding; the math answer carries the original query as
`expression` plus the stringified value.  The constant label fields
(`Current Time`, `Calculation`) are elided. -/
inductive IAnswer where
  | timeAns
  | mathAns (expression : String) (answer : MathVal)
deriving DecidableEq, Repr

def TIME_WORDS : List String := ["time", "what time", "current time", "now"]

def MATH_OPS : List String := ["+", "-", "*", "/", "%", "**"]

/-- The query as `check_instant_answer` normalizes it: `strip` then `lower`. -/
def normQ (query : String) : String := pyLower (pyStrip query)

/-- app.py `check_instant_answer`: time intent first, then arithmetic;
`isinstance(result, (int, float))` also accepts bools (a subclass of
`int` in Python), and `str` renders `True`/`False` for them. -/
def checkInstantAnswer (query : String) : Option IAnswer :=
  let q := normQ query
  if TIME_WORDS.any (fun w => strContains q w) then some .timeAns
  else if MATH_OPS.any (fun op => strContains q op) then
    match pyEvalStr q with
    | some (.rint n) => some (.mathAns query (.exactStr (toString n)))
    | some (.rbool b) => some (.mathAns query (.exactStr (if b then "True" else "False")))
    | some .rfloat => some (.mathAns query .floatRepr)
    | some .rdict => none
    | none => none
  else none

/-- Does the expression use only numeric literals and the six claimed
operators (counting unary sign as a use of `+`/`-`)? -/
def usesOnlyArith : PyExpr → Bool
  | .num _ => true
  | .uminus e => usesOnlyArith e
  | .uplus e => usesOnlyArith e
  | .binop _ a b => usesOnlyArith a && usesOnlyArith b
  | _ => false

/-- Does the expression mention a name other than `__builtins__` (the one
name the evaluation environment binds)? -/
def hasPlainName : PyExpr → Bool
  | .num _ => false
  | .name s => s ≠ "__builtins__"
  | .uminus e => hasPlainName e
  | .uplus e => hasPlainName e
  | .binop _ a b => hasPlainName a || hasPlainName b
  | .cmp _ a b => hasPlainName a || hasPlainName b
  | .call0 f => hasPlainName f
  | .call1 f a => hasPlainName f || hasPlainName a

/-! Search-request construction (`/search` in app.py). -/

/-- An entry of the non-scoring `filter` clause list of the search body. -/
inductive EsFilter where
  | termIsSafe (b : Bool)
  | termFileType (s : String)
deriving DecidableEq, Repr

/-- app.py `search`: filter construction.  The safe-search filter is
added only when `safe_search` is false; the `file_type` filter only when
the parameter is truthy (present and non-empty). -/
def buildFilters (safeSearch : Bool) (fileType : Option String) : List EsFilter :=
  let fs : List EsFilter := if !safeSearch then [.termIsSafe false] else []
  match fileType with
  | some ft => if ft ≠ "" then fs ++ [.termFileType ft] else fs
  | none => fs

/-- The multi-match relevance query of `/search`, with its constant
parameters kept as fields to pin the request shape. -/
structure MultiMatchQ where
  query : String
  fields : List String
  matchType : String
  operator : String
  fuzziness : String
  prefixLength : Nat
deriving DecidableEq, Repr

def mkQueryBody (q : String) : MultiMatchQ :=
  ⟨q, ["title^3", "content"], "best_fields", "or", "AUTO", 1⟩

/-- Shape of the submitted query: the bare multi-match, or a bool query
with the relevance query as `must` and the filters as non-scoring
`filter` clauses. -/
inductive EsQuery where
  | plain (m : MultiMatchQ)
  | boolFiltered (must : MultiMatchQ) (filter : List EsFilter)
deriving DecidableEq, Repr

/-- app.py `search`: the query part of `search_body` (highlighting,
pagination and the aggregation spec are orthogonal to the claims and
elided). -/
def buildEsQuery (q : String) (safeSearch : Bool) (fileType : Option String) : EsQuery :=
  let fs := buildFilters safeSearch fileType
  if fs.isEmpty then .plain (mkQueryBody q) else .boolFiltered (mkQueryBody q) fs

/-! Related topics (`/search` post-processing in app.py). -/

/-- The exclusion set for related topics: lowercased stop-words plus the
word tokens of the lowercased raw query. -/
def relatedExclusions (q : String) : List String :=
  STOP_WORDS.map pyLower ++ wordTokens (pyLower q)

/-- app.py `search`: the related-topics loop over aggregation buckets.
A `none` bucket key models `bucket.get` returning `None`; the loop
breaks as soon as five topics are collected. -/
def relatedAux (excl : List String) : List (Option String) → List String → List String
  | [], acc => acc
  | b :: rest, acc =>
    match b with
    | none => relatedAux excl rest acc
    | some term =>
      if term = "" then relatedAux excl rest acc
      else
        let t := pyLower term
        if excl.contains t || t.length < 3 then relatedAux excl rest acc
        else
          let acc' := if acc.contains term then acc else acc ++ [term]
          if 5 ≤ acc'.length then acc' else relatedAux excl rest acc'

def relatedTopics (buckets : List (Option String)) (q : String) : List String :=
  relatedAux (relatedExclusions q) buckets []

/-! The `/index-page` endpoint (app.py) and the document model. -/

structure ImageEntry where
  url : String
  alt : String
deriving DecidableEq, Repr

/-- The indexed document.  The wall-clock `timestamp` field is outside
the embedding. -/
structure Doc where
  url : String
  title : String
  content : String
  favicon_url : String
  preview_image_url : String
  images : List ImageEntry
  file_type : String
  is_safe : Bool
deriving DecidableEq, Repr

/-- JSON payload of `/index-page`; `none` models an absent key.  The
`is_safe` field models a client-supplied safety flag, which the endpoint
never reads. -/
structure IndexPayload where
  url : Option String := none
  title : Option String := none
  content : Option String := none
  favicon_url : Option String := none
  preview_image_url : Option String := none
  images : Option (List ImageEntry) := none
  file_type : Option String := none
  is_safe : Option Bool := none
deriving DecidableEq, Repr

/-- app.py `index_page`: API-key check, payload validation and document
construction; errors carry the HTTP status code, success carries the
document exactly as handed to the index. -/
def indexPage (apiKeyEnv : Option String) (xApiKey : Option String) (p : IndexPayload) :
    Except Nat Doc :=
  match apiKeyEnv with
  | none => .error 500
  | some k =>
    if k = "" then .error 500
    else
      match xApiKey with
      | none => .error 401
      | some hk =>
        if hk ≠ k then .error 401
        else
          let content := p.content.getD ""
          let title := p.title.getD (match p.url with
            | some u => if u ≠ "" then u else "No title"
            | none => "No title")
          match p.url with
          | none => .error 400
          | some u =>
            if u = "" then .error 400
            else
              .ok { url := u, title := title, content := content,
                    favicon_url := p.favicon_url.getD "",
                    preview_image_url := p.preview_image_url.getD "",
                    images := p.images.getD [],
                    file_type := p.file_type.getD "html",
                    is_safe := isSafeContent content }

/-! The crawler (`Backend/crawler.py`). -/

/-- Helper for `cleanText`: collapse whitespace runs to single spaces. -/
def collapseWsAux : List Char → Bool → List Char
  | [], _ => []
  | c :: rest, prevWs =>
    if c.isWhitespace then
      if prevWs then collapseWsAux rest true else ' ' :: collapseWsAux rest true
    else c :: collapseWsAux rest false

/-- crawler.py `clean_text`: `re.sub` of whitespace runs to one space,
then strip. -/
def cleanText (s : String) : String := pyStrip (String.mk (collapseWsAux s.data false))

/-- A URL scheme: a letter followed by letters, digits, `+`, `-`, `.`. -/
def validScheme (s : String) : Bool :=
  match s.data with
  | [] => false
  | c :: rest => c.isAlpha && rest.all fun d => d.isAlphanum || d = '+' || d = '-' || d = '.'

/-- Split at the first `://`, returning the parts before and after it. -/
def splitSchemeAux : List Char → List Char → Option (List Char × List Char)
  | acc, ':' :: '/' :: '/' :: rest => some (acc.reverse, rest)
  | acc, c :: rest => splitSchemeAux (c :: acc) rest
  | _, [] => none

structure UrlParts where
  scheme : String
  netloc : String
  path : String
deriving DecidableEq, Repr

/-- Python `urlparse` on the absolute-http(s)-URL fragment the crawler
handles: scheme, netloc (up to the first `/`, `?` or `#`) and path (up
to the first `?` or `#`).  A URL without a valid `scheme://` head parses
as a bare path. -/
def urlparseM (u : String) : UrlParts :=
  match splitSchemeAux [] u.data with
  | some (sch, rest) =>
    if validScheme (String.mk sch) then
      let netloc := rest.takeWhile fun c => c != '/' && c != '?' && c != '#'
      let after := rest.dropWhile fun c => c != '/' && c != '?' && c != '#'
      let path := after.takeWhile fun c => c != '?' && c != '#'
      ⟨String.mk sch, String.mk netloc, String.mk path⟩
    else ⟨"", "", u⟩
  | none => ⟨"", "", u⟩

/-- crawler.py `get_domain`. -/
def getDomain (url : String) : String :=
  (urlparseM url).scheme ++ "://" ++ (urlparseM url).netloc

/-- The fragment-stripping step `absolute_url.split` at `#`, first part. -/
def stripFrag (s : String) : String := String.mk (s.data.takeWhile fun c => c != '#')

/-- The directory part of the base path, for relative references. -/
def baseDirOf (url : String) : String :=
  let p := (urlparseM url).path
  let d := (p.data.reverse.dropWhile fun c => c != '/').reverse
  if d.isEmpty then "/" else String.mk d

/-- Python `urljoin` on the fragment the crawler exercises: absolute
links pass through; protocol-relative, root-relative, fragment-only and
plain relative references resolve against the base.  Dot-segment
normalization and query handling are outside the fragment. -/
def urljoinM (base href : String) : String :=
  if strStartsWith href "http://" || strStartsWith href "https://" then href
  else if strStartsWith href "//" then (urlparseM base).scheme ++ ":" ++ href
  else if strStartsWith href "/" then getDomain base ++ href
  else if strStartsWith href "#" then stripFrag base ++ href
  else getDomain base ++ baseDirOf base ++ href

/-- Helper for `extractLinks`; the Python `set` is modeled as a
first-occurrence-order deduplicated list. -/
def extractLinksAux (url domain : String) : List String → List String → List String
  | [], acc => acc
  | href :: rest, acc =>
    let absu := urljoinM url href
    if strStartsWith absu domain then
      let l := stripFrag absu
      if l != "" && ! acc.contains l then extractLinksAux url domain rest (acc ++ [l])
      else extractLinksAux url domain rest acc
    else extractLinksAux url domain rest acc

/-- crawler.py `extract_links`: keep a link iff its absolutized form
starts with the page's `scheme://netloc` string, strip the fragment,
drop empties. -/
def extractLinks (url : String) (hrefs : List String) : List String :=
  extractLinksAux url (getDomain url) hrefs []

/-- The `src` and `alt` attributes of an `img` tag. -/
structure ImgTag where
  src : Option String
  alt : String
deriving DecidableEq, Repr

/-- crawler.py `extract_images`: absolutize `src`, default empty alt
text to a placeholder. -/
def extractImages (url : String) (tags : List ImgTag) : List ImageEntry :=
  tags.foldl (fun acc img =>
    match img.src with
    | some s =>
      if s ≠ "" then
        let alt := pyStrip img.alt
        acc ++ [⟨urljoinM url s, if alt ≠ "" then alt else "No alt text"⟩]
      else acc
    | none => acc) []

/-- What BeautifulSoup extracts from a successfully fetched HTML page:
the `title` text, the `body` text (scripts and styles decomposed), the
whole-document text fallback, the favicon `href`, the `og:image`
`content`, the `img` tags and the anchor `href` attributes.  The parsing
library is an external collaborator; its output is the input here. -/
structure Page where
  titleText : Option String
  bodyText : Option String
  docText : String
  faviconHref : Option String
  ogImage : Option String
  imgTags : List ImgTag
  hrefs : List String
deriving DecidableEq, Repr

/-- The crawl environment: PDF library availability, the per-URL result
of `extract_pdf_text` (`none` for unavailability, download or parse
errors, or page text that was empty before stripping; the function can
also return an empty string when the text strips to nothing), the
per-URL HTTP fetch outcome (`none` for any request exception or non-2xx
status), and the index endpoint's response to a POSTed document. -/
structure CrawlEnv where
  pdfSupport : Bool
  pdfText : String → Option String
  fetch : String → Option Page
  postOk : Doc → Bool

/-- Result of `crawl_and_index`: the returned success flag and link
list, plus the document POSTed to the index endpoint, if any. -/
structure CrawlOutcome where
  success : Bool
  links : List String
  posted : Option Doc
deriving DecidableEq, Repr

/-- The content of an HTML document before truncation: body text (or
whole-document text when there is no body element), whitespace-normalized. -/
def htmlRawContent (page : Page) : String :=
  cleanText (match page.bodyText with
    | some b => b
    | none => page.docText)

/-- The stored HTML content: truncated to the 50,000-character cap. -/
def htmlContent (page : Page) : String :=
  if (htmlRawContent page).length > 50000 then strTake (htmlRawContent page) 50000
  else htmlRawContent page

/-- The document `crawl_and_index` builds for an HTML page. -/
def htmlDoc (url : String) (page : Page) : Doc :=
  { url := url,
    title := cleanText (page.titleText.getD "No title"),
    content := htmlContent page,
    favicon_url := match page.faviconHref with
      | some h => if h ≠ "" then urljoinM url h else ""
      | none => "",
    preview_image_url := match page.ogImage with
      | some c => if c ≠ "" then urljoinM url c else ""
      | none => "",
    images := extractImages url page.imgTags,
    file_type := "html", is_safe := isSafeContent (htmlContent page) }

/-- Python `path.split` at `/`, last element: the suffix after the last
slash (the whole path when it has no slash). -/
def lastPathSegment (path : String) : String :=
  String.mk ((path.data.reverse.takeWhile fun c => c != '/').reverse)

/-- The document `crawl_and_index` builds for an extracted PDF text:
title is the last path segment, content truncated to the cap. -/
def pdfDoc (url : String) (t : String) : Doc :=
  { url := url,
    title := lastPathSegment (urlparseM url).path,
    content := strTake t 50000,
    favicon_url := "", preview_image_url := "", images := [],
    file_type := "pdf", is_safe := isSafeContent (strTake t 50000) }

/-- crawler.py `crawl_and_index`, HTML path (also reached by PDF URLs
whenever the PDF branch does not return).  Links are extracted only when
the POST to the index endpoint succeeded. -/
def htmlCrawl (env : CrawlEnv) (url : String) : CrawlOutcome :=
  match env.fetch url with
  | none => ⟨false, [], none⟩
  | some page =>
    if env.postOk (htmlDoc url page) then
      ⟨true, extractLinks url page.hrefs, some (htmlDoc url page)⟩
    else ⟨false, [], some (htmlDoc url page)⟩

/-- crawler.py `crawl_and_index`.  A PDF URL with PDF support and
non-empty extracted text is indexed as a `pdf` document with no links;
in every other case control falls through to the HTML path. -/
def crawlAndIndex (env : CrawlEnv) (url : String) : CrawlOutcome :=
  if strEndsWith (pyLower url) ".pdf" && env.pdfSupport then
    match env.pdfText url with
    | some t =>
      if t ≠ "" then
        if env.postOk (pdfDoc url t) then ⟨true, [], some (pdfDoc url t)⟩
        else ⟨false, [], some (pdfDoc url t)⟩
      else htmlCrawl env url
    | none => htmlCrawl env url
  else htmlCrawl env url

def MAX_DEPTH : Nat := 2

def MAX_PAGES : Nat := 300

structure CrawlState where
  visited : List String
  queue : List (String × Nat)
  successful : Nat
  failed : Nat
deriving DecidableEq, Repr

/-- What one loop iteration did: the URL handed to `crawl_and_index` (if
any), the document POSTed (if any), and the tasks appended to the
queue. -/
structure StepTrace where
  crawled : Option String
  posted : Option Doc
  enqueued : List (String × Nat)
deriving DecidableEq, Repr

/-- The tasks a successful iteration appends to the queue: each
discovered link not yet visited, at depth+1, subject to the remaining
page budget, and only when the current depth is below the max depth. -/
def newEnqueued (env : CrawlEnv) (st : CrawlState) (url : String) (depth : Nat) :
    List (String × Nat) :=
  if depth < MAX_DEPTH then
    ((crawlAndIndex env url).links.filter fun l =>
      ! (st.visited ++ [url]).contains l &&
        decide ((st.visited ++ [url]).length < MAX_PAGES)).map
      fun l => (l, depth + 1)
  else []

/-- One iteration of the BFS loop in `recursive_crawl`; `none` when the
loop terminates (empty queue or page budget exhausted).  The politeness
delay and logging are elided. -/
def crawlStep (env : CrawlEnv) (st : CrawlState) : Option (CrawlState × StepTrace) :=
  match st.queue with
  | [] => none
  | (url, depth) :: rest =>
    if MAX_PAGES ≤ st.visited.length then none
    else if st.visited.contains url then
      some ({ st with queue := rest }, ⟨none, none, []⟩)
    else if MAX_DEPTH < depth then
      some ({ st with visited := st.visited ++ [url], queue := rest }, ⟨none, none, []⟩)
    else if (crawlAndIndex env url).success then
      some ({ visited := st.visited ++ [url],
              queue := rest ++ newEnqueued env st url depth,
              successful := st.successful + 1, failed := st.failed },
            ⟨some url, (crawlAndIndex env url).posted, newEnqueued env st url depth⟩)
    else
      some ({ visited := st.visited ++ [url], queue := rest,
              successful := st.successful, failed := st.failed + 1 },
            ⟨some url, (crawlAndIndex env url).posted, []⟩)

/-! Supporting lemmas. -/

theorem pyLower_length (s : String) : (pyLower s).length = s.length := by
  cases s
  simp [pyLower, String.length_mk, String.length]

theorem startsWithCh_iff : ∀ pre s : List Char, startsWithCh pre s = true ↔ ∃ t, s = pre ++ t := by
  intro pre
  induction pre with
  | nil => intro s; simp [startsWithCh]
  | cons a as ih =>
    intro s
    cases s with
    | nil => simp [startsWithCh]
    | cons b bs =>
      simp only [startsWithCh, Bool.and_eq_true, decide_eq_true_eq, ih bs]
      constructor
      · rintro ⟨rfl, t, rfl⟩
        exact ⟨t, rfl⟩
      · rintro ⟨t, h⟩
        injection h with h1 h2
        exact ⟨h1.symm, t, h2⟩

theorem takeWhile_append_all {p : Char → Bool} :
    ∀ a b : List Char, (∀ c ∈ a, p c = true) →
      (a ++ b).takeWhile p = a ++ b.takeWhile p := by
  intro a
  induction a with
  | nil => intro b _; rfl
  | cons c a' ih =>
    intro b h
    have hc : p c = true := h c (by simp)
    simp only [List.cons_append, List.takeWhile_cons, hc, if_true]
    rw [ih b fun x hx => h x (by simp [hx])]

theorem pyEvalE_none_of_hasPlainName : ∀ e : PyExpr, hasPlainName e = true → pyEvalE e = none := by
  intro e
  induction e with
  | num n => simp [hasPlainName]
  | name s =>
    intro h
    simp only [hasPlainName, decide_eq_true_eq] at h
    simp [pyEvalE, h]
  | uminus e ih =>
    intro h
    simp only [hasPlainName] at h
    simp [pyEvalE, ih h]
  | uplus e ih =>
    intro h
    simp only [hasPlainName] at h
    simp [pyEvalE, ih h]
  | binop op a b iha ihb =>
    intro h
    simp only [hasPlainName, Bool.or_eq_true] at h
    rcases h with h | h
    · simp [pyEvalE, iha h]
    · cases ha : pyEvalE a <;> simp [pyEvalE, ha, ihb h]
  | cmp op a b iha ihb =>
    intro h
    simp only [hasPlainName, Bool.or_eq_true] at h
    rcases h with h | h
    · simp [pyEvalE, iha h]
    · cases ha : pyEvalE a <;> simp [pyEvalE, ha, ihb h]
  | call0 f ihf =>
    intro _
    cases hf : pyEvalE f <;> simp [pyEvalE, hf]
  | call1 f a ihf iha =>
    intro _
    cases hf : pyEvalE f <;> cases ha : pyEvalE a <;> simp [pyEvalE, hf, ha]

/-! Claim theorems. -/

/-- Claim C1: with `safe_search` explicitly false, the request carries a
non-scoring `filter` clause `is_safe = false` — not `is_safe = true` and
not the absence of a filter — and with `safe_search` true no `is_safe`
filter at all is added. -/
theorem c1_safe_search_filter : ∀ (q : String) (ft : Option String),
    EsFilter.termIsSafe false ∈ buildFilters false ft ∧
    EsFilter.termIsSafe true ∉ buildFilters false ft ∧
    (∀ b, EsFilter.termIsSafe b ∉ buildFilters true ft) ∧
    buildEsQuery q false ft = .boolFiltered (mkQueryBody q) (buildFilters false ft) := by
  intro q ft
  cases ft with
  | none => refine ⟨by simp [buildFilters], by simp [buildFilters], ?_, by simp [buildEsQuery, buildFilters]⟩
            intro b
            simp [buildFilters]
  | some s =>
    by_cases hs : s = ""
    · refine ⟨by simp [buildFilters, hs], by simp [buildFilters, hs], ?_, by simp [buildEsQuery, buildFilters, hs]⟩
      intro b
      simp [buildFilters, hs]
    · refine ⟨by simp [buildFilters, hs], by simp [buildFilters, hs], ?_, by simp [buildEsQuery, buildFilters, hs]⟩
      intro b
      simp [buildFilters, hs]

/-- Claim C2 counterexample: the query string `(1<2)+1` contains `+`,
parses to an expression that is not built from numeric literals and the
six operators alone (it contains a comparison), and still produces the
math answer `2` — refuting the claim that no expression using any other
construct can produce an answer. -/
theorem c2_counterexample :
    checkInstantAnswer "(1<2)+1" = some (.mathAns "(1<2)+1" (.exactStr "2")) ∧
    (pyParse (normQ "(1<2)+1")).map usesOnlyArith = some false := by
  constructor <;> rfl

/-- Claim C2 amended: evaluation runs under `eval` with empty builtins and
no bound names except `__builtins__`, so any query whose expression
references another name (in particular every call to a named function)
yields no math answer; but evaluation is not restricted to numeric
literals and the six operators — other constructs such as comparisons
also evaluate and can produce a math answer, e.g. `(1<2)+1` answers `2`. -/
theorem c2_amended_names_blocked :
    (∀ (q : String) (e : PyExpr), pyParse (normQ q) = some e → hasPlainName e = true →
      ∀ x y, checkInstantAnswer q ≠ some (.mathAns x y)) ∧
    checkInstantAnswer "(1<2)+1" = some (.mathAns "(1<2)+1" (.exactStr "2")) := by
  constructor
  · intro q e hp hn x y
    have he : pyEvalStr (normQ q) = none := by
      simp [pyEvalStr, hp, pyEvalE_none_of_hasPlainName e hn]
    cases h1 : TIME_WORDS.any fun w => strContains (normQ q) w with
    | true => simp [checkInstantAnswer, h1]
    | false =>
      cases h2 : MATH_OPS.any fun op => strContains (normQ q) op with
      | true => simp [checkInstantAnswer, h1, h2, he]
      | false => simp [checkInstantAnswer, h1, h2]
  · rfl

/-- Witness for the amended claim C2 at the query `2+2*hack()`. -/
theorem c2_amended_names_blocked_witness :
    pyParse (normQ "2+2*hack()") =
      some (.binop .add (.num 2) (.binop .mul (.num 2) (.call0 (.name "hack")))) ∧
    hasPlainName (.binop .add (.num 2) (.binop .mul (.num 2) (.call0 (.name "hack")))) = true ∧
    checkInstantAnswer "2+2*hack()" ≠ some (.mathAns "2+2*hack()" (.exactStr "4")) := by
  refine ⟨by rfl, by rfl, ?_⟩
  exact c2_amended_names_blocked.1 "2+2*hack()"
    (.binop .add (.num 2) (.binop .mul (.num 2) (.call0 (.name "hack"))))
    (by rfl) (by rfl) "2+2*hack()" (.exactStr "4")

/-- Claim C3: resolving `2+2` yields the math answer `4`; resolving
`2+2*hack()` yields no answer; and in general any evaluation failure on
the arithmetic path yields no answer — the resolver is a total function
into an option type, so no error ever propagates. -/
theorem c3_instant_answer :
    checkInstantAnswer "2+2" = some (.mathAns "2+2" (.exactStr "4")) ∧
    checkInstantAnswer "2+2*hack()" = none ∧
    ∀ q : String, (TIME_WORDS.any fun w => strContains (normQ q) w) = false →
      pyEvalStr (normQ q) = none → checkInstantAnswer q = none := by
  refine ⟨by rfl, by rfl, ?_⟩
  intro q h1 h2
  cases h3 : MATH_OPS.any fun op => strContains (normQ q) op with
  | true => simp [checkInstantAnswer, h1, h2, h3]
  | false => simp [checkInstantAnswer, h1, h3]

/-- Witness for claim C3 at the query `5%0`, whose evaluation raises
`ZeroDivisionError` inside the resolver. -/
theorem c3_instant_answer_witness :
    (TIME_WORDS.any fun w => strContains (normQ "5%0") w) = false ∧
    pyEvalStr (normQ "5%0") = none ∧
    checkInstantAnswer "5%0" = none := by
  refine ⟨by rfl, by rfl, ?_⟩
  exact c3_instant_answer.2.2 "5%0" (by rfl) (by rfl)

/-- Claim C6 counterexample: cleaning `the quick` does persist a query-log
entry — `quick` is not a stop-word, so the cleaned query is `quick`
(5 characters, above the threshold). -/
theorem c6_counterexample : searchLogEntry "the quick" ≠ none := by
  decide

/-- Claim C6 amended: cleaning `the quick` drops only the stop-word
`the`; `quick` is not in the stop-word list, the cleaned query is
`quick` with length 5 ≥ 3, and a log entry with cleaned query `quick`
is persisted. -/
theorem c6_amended_logged :
    cleanQuery "the quick" = some "quick" ∧
    "the" ∈ STOP_WORDS ∧ "quick" ∉ STOP_WORDS ∧ 3 ≤ "quick".length ∧
    searchLogEntry "the quick" = some ⟨"quick", "the quick"⟩ := by
  refine ⟨by rfl, by decide, by decide, by decide, by rfl⟩

/-- The properties the related-topics loop guarantees for every term it
collects. -/
def goodTopic (excl : List String) (t : String) : Prop :=
  t ≠ "" ∧ pyLower t ∉ excl ∧ 3 ≤ (pyLower t).length

theorem relatedAux_spec (excl : List String) :
    ∀ (buckets : List (Option String)) (acc : List String),
      acc.length ≤ 4 → acc.Nodup → (∀ t ∈ acc, goodTopic excl t) →
      (relatedAux excl buckets acc).length ≤ 5 ∧
      (relatedAux excl buckets acc).Nodup ∧
      ∀ t ∈ relatedAux excl buckets acc, goodTopic excl t := by
  intro buckets
  induction buckets with
  | nil =>
    intro acc h1 h2 h3
    exact ⟨by simpa [relatedAux] using Nat.le_succ_of_le h1,
           by simpa [relatedAux] using h2,
           by simpa [relatedAux] using h3⟩
  | cons b rest ih =>
    intro acc h1 h2 h3
    cases b with
    | none => simpa [relatedAux] using ih acc h1 h2 h3
    | some term =>
      by_cases ht : term = ""
      · simpa [relatedAux, ht] using ih acc h1 h2 h3
      · by_cases hex : pyLower term ∈ excl ∨ (pyLower term).length < 3
        · simpa [relatedAux, ht, hex] using ih acc h1 h2 h3
        · have hc : pyLower term ∉ excl := fun hm => hex (Or.inl hm)
          have hlen : 3 ≤ (pyLower term).length :=
            Nat.not_lt.mp fun hl => hex (Or.inr hl)
          by_cases hdup : term ∈ acc
          · have hlt : ¬ 5 ≤ acc.length := by omega
            have heq : relatedAux excl (some term :: rest) acc = relatedAux excl rest acc := by
              simp [relatedAux, ht, hex, hdup, hlt]
            rw [heq]
            exact ih acc h1 h2 h3
          · have hnodup' : (acc ++ [term]).Nodup := by
              rw [List.nodup_append]
              exact ⟨h2, List.nodup_singleton term,
                     by simpa [List.disjoint_singleton] using hdup⟩
            have hmem' : ∀ t ∈ acc ++ [term], goodTopic excl t := by
              intro t hmem
              rcases List.mem_append.mp hmem with h | h
              · exact h3 t h
              · rw [List.mem_singleton.mp h]
                exact ⟨ht, hc, hlen⟩
            have h2B : ¬ ((excl.contains (pyLower term) ||
                decide ((pyLower term).length < 3)) = true) := by
              simpa using hex
            have h3B : ¬ (acc.contains term = true) := by
              simpa using hdup
            by_cases hfive : 5 ≤ (acc ++ [term]).length
            · have heq : relatedAux excl (some term :: rest) acc = acc ++ [term] := by
                simp only [relatedAux]
                rw [if_neg ht, if_neg h2B, if_neg h3B, if_pos hfive]
              rw [heq]
              refine ⟨?_, hnodup', hmem'⟩
              simp only [List.length_append, List.length_singleton]
              omega
            · have heq : relatedAux excl (some term :: rest) acc =
                  relatedAux excl rest (acc ++ [term]) := by
                simp only [relatedAux]
                rw [if_neg ht, if_neg h2B, if_neg h3B, if_neg hfive]
              rw [heq]
              refine ih (acc ++ [term]) ?_ hnodup' hmem'
              simp only [List.length_append, List.length_singleton] at hfive ⊢
              omega

/-- Claim C9: the related-topics list never contains a term shorter than
3 characters, a stop-word, a token already present in the raw query
(case-insensitively), or a duplicate, and its length is at most 5. -/
theorem c9_related_topics : ∀ (buckets : List (Option String)) (q : String),
    (relatedTopics buckets q).length ≤ 5 ∧
    (relatedTopics buckets q).Nodup ∧
    ∀ t ∈ relatedTopics buckets q,
      3 ≤ t.length ∧ t ∉ STOP_WORDS ∧ pyLower t ∉ wordTokens (pyLower q) := by
  intro buckets q
  obtain ⟨hl, hn, hm⟩ := relatedAux_spec (relatedExclusions q) buckets []
    (by simp) List.nodup_nil (by simp)
  refine ⟨hl, hn, ?_⟩
  intro t ht
  obtain ⟨-, hnotmem, hlen⟩ := hm t ht
  refine ⟨?_, ?_, ?_⟩
  · rw [pyLower_length] at hlen
    exact hlen
  · intro hstop
    exact hnotmem (by
      unfold relatedExclusions
      exact List.mem_append.mpr (Or.inl (List.mem_map_of_mem pyLower hstop)))
  · intro htok
    exact hnotmem (by
      unfold relatedExclusions
      exact List.mem_append.mpr (Or.inr htok))

/-- Witness for claim C9: with one aggregation bucket `Coding` and raw
query `python`, the term `Coding` is collected and satisfies the stated
properties. -/
theorem c9_related_topics_witness :
    "Coding" ∈ relatedTopics [some "Coding"] "python" ∧
    3 ≤ "Coding".length ∧ "Coding" ∉ STOP_WORDS ∧
    pyLower "Coding" ∉ wordTokens (pyLower "python") := by
  refine ⟨by decide, ?_⟩
  exact (c9_related_topics [some "Coding"] "python").2.2 "Coding" (by decide)

/-- The `/index-page` endpoint never reads a client-supplied `is_safe`
field. -/
theorem indexPage_ignores_is_safe (envKey hdr : Option String) (p : IndexPayload)
    (b : Option Bool) :
    indexPage envKey hdr { p with is_safe := b } = indexPage envKey hdr p := by
  cases p
  rfl

/-- Claim C10: a successful `/index-page` call stores a document whose
`is_safe` flag is recomputed server-side from the submitted content via
the profanity lexicon; a client-supplied `is_safe` value is ignored; and
missing or empty content classifies as safe. -/
theorem c10_is_safe_recomputed : ∀ (envKey hdr : Option String) (p : IndexPayload) (d : Doc),
    indexPage envKey hdr p = .ok d →
    d.is_safe = isSafeContent (p.content.getD "") ∧
    (∀ b : Option Bool, indexPage envKey hdr { p with is_safe := b } = .ok d) ∧
    (p.content.getD "" = "" → d.is_safe = true) := by
  intro envKey hdr p d h
  have hsafe : d.is_safe = isSafeContent (p.content.getD "") := by
    cases envKey with
    | none => simp [indexPage] at h
    | some k =>
      by_cases hk : k = ""
      · simp [indexPage, hk] at h
      · cases hdr with
        | none => simp [indexPage, hk] at h
        | some hk2 =>
          by_cases hkk : hk2 = k
          · cases hu : p.url with
            | none => simp [indexPage, hk, hkk, hu] at h
            | some u =>
              by_cases hue : u = ""
              · simp [indexPage, hk, hkk, hu, hue] at h
              · simp [indexPage, hk, hkk, hu, hue] at h
                rw [← h]
          · simp [indexPage, hk, hkk] at h
  refine ⟨hsafe, fun b => by rw [indexPage_ignores_is_safe]; exact h, fun hcon => ?_⟩
  rw [hsafe, hcon]
  decide

/-- Witness for claim C10: a concrete authorized call whose payload
carries `is_safe = true` but whose content contains a lexicon word, so
the stored document is classified unsafe. -/
theorem c10_is_safe_recomputed_witness :
    indexPage (some "key") (some "key")
      { url := some "https://e.com", content := some "very offensive text",
        is_safe := some true } =
      .ok { url := "https://e.com", title := "https://e.com",
            content := "very offensive text", favicon_url := "",
            preview_image_url := "", images := [], file_type := "html",
            is_safe := false } ∧
    isSafeContent "very offensive text" = false := by
  refine ⟨by rfl, ?_⟩
  have h := c10_is_safe_recomputed (some "key") (some "key")
    { url := some "https://e.com", content := some "very offensive text",
      is_safe := some true }
    { url := "https://e.com", title := "https://e.com",
      content := "very offensive text", favicon_url := "",
      preview_image_url := "", images := [], file_type := "html",
      is_safe := false }
    (by rfl)
  exact h.1.symm

/-- Claim C8: a dequeued task whose depth exceeds the max depth is marked
visited and counted against the page budget, but is never handed to
`crawl_and_index` (so never fetched), POSTs no document, and enqueues
nothing. -/
theorem c8_depth_skip : ∀ (env : CrawlEnv) (st : CrawlState) (url : String) (depth : Nat)
    (rest : List (String × Nat)),
    st.queue = (url, depth) :: rest →
    st.visited.contains url = false →
    st.visited.length < MAX_PAGES →
    MAX_DEPTH < depth →
    crawlStep env st =
      some ({ st with visited := st.visited ++ [url], queue := rest }, ⟨none, none, []⟩) ∧
    url ∈ st.visited ++ [url] ∧
    (st.visited ++ [url]).length = st.visited.length + 1 := by
  intro env st url depth rest hq hv hlen hd
  refine ⟨?_, by simp, by simp⟩
  have h1 : ¬ MAX_PAGES ≤ st.visited.length := Nat.not_le.mpr hlen
  have hv' : url ∉ st.visited := by simpa using hv
  simp [crawlStep, hq, h1, hv', hd]

theorem validScheme_no_hash {s : String} (h : validScheme s = true) :
    ∀ c ∈ s.data, c ≠ '#' := by
  intro c hc
  unfold validScheme at h
  cases hd : s.data with
  | nil => rw [hd] at hc; cases hc
  | cons a rest =>
    rw [hd] at h hc
    simp only [Bool.and_eq_true, List.all_eq_true] at h
    rcases List.mem_cons.mp hc with rfl | hc
    · rintro rfl
      exact absurd h.1 (by decide)
    · rintro rfl
      have := h.2 '#' hc
      revert this
      decide

theorem urlparseM_no_hash (u : String) :
    (∀ c ∈ (urlparseM u).scheme.data, c ≠ '#') ∧
    (∀ c ∈ (urlparseM u).netloc.data, c ≠ '#') := by
  unfold urlparseM
  split
  · split
    · rename_i sch rest heq hv
      refine ⟨fun c hc => validScheme_no_hash hv c hc, fun c hc => ?_⟩
      have hp := List.mem_takeWhile_imp hc
      simp only [Bool.and_eq_true, bne_iff_ne, ne_eq] at hp
      exact hp.2
    · simp
  · simp

theorem getDomain_no_hash (u : String) : ∀ c ∈ (getDomain u).data, c ≠ '#' := by
  intro c hc
  unfold getDomain at hc
  rw [String.data_append, String.data_append] at hc
  rcases List.mem_append.mp hc with h1 | hnet
  · rcases List.mem_append.mp h1 with hsch | hmid
    · exact (urlparseM_no_hash u).1 c hsch
    · have hm' : c ∈ ([':', '/', '/'] : List Char) := hmid
      simp only [List.mem_cons, List.not_mem_nil, or_false] at hm'
      rcases hm' with rfl | rfl | rfl <;> decide
  · exact (urlparseM_no_hash u).2 c hnet

/-- The properties `extract_links` guarantees for every kept link. -/
def goodLink (domain l : String) : Prop :=
  strStartsWith l domain = true ∧ l ≠ "" ∧ ∀ c ∈ l.data, c ≠ '#'

theorem stripFrag_goodLink {domain absu : String}
    (hdom : ∀ c ∈ domain.data, c ≠ '#')
    (hpre : strStartsWith absu domain = true)
    (hne : stripFrag absu ≠ "") :
    goodLink domain (stripFrag absu) := by
  obtain ⟨t, ht⟩ := (startsWithCh_iff domain.data absu.data).mp hpre
  have hdata : (stripFrag absu).data =
      domain.data ++ t.takeWhile (fun c => c != '#') := by
    show (absu.data.takeWhile fun c => c != '#') = _
    rw [ht]
    exact takeWhile_append_all domain.data t fun c hcm => by
      simp [bne_iff_ne, hdom c hcm]
  refine ⟨?_, hne, ?_⟩
  · exact (startsWithCh_iff domain.data (stripFrag absu).data).mpr
      ⟨t.takeWhile (fun c => c != '#'), hdata⟩
  · intro c hcm
    rw [hdata] at hcm
    rcases List.mem_append.mp hcm with hcm | hcm
    · exact hdom c hcm
    · have := List.mem_takeWhile_imp hcm
      simpa [bne_iff_ne] using this

theorem extractLinksAux_spec (url domain : String)
    (hdom : ∀ c ∈ domain.data, c ≠ '#') :
    ∀ (hrefs acc : List String), (∀ l ∈ acc, goodLink domain l) →
      ∀ l ∈ extractLinksAux url domain hrefs acc, goodLink domain l := by
  intro hrefs
  induction hrefs with
  | nil =>
    intro acc hacc l hl
    exact hacc l (by simpa [extractLinksAux] using hl)
  | cons href rest ih =>
    intro acc hacc l hl
    by_cases hpre : strStartsWith (urljoinM url href) domain = true
    · by_cases hadd : (stripFrag (urljoinM url href) != "" &&
          ! acc.contains (stripFrag (urljoinM url href))) = true
      · have heq : extractLinksAux url domain (href :: rest) acc =
            extractLinksAux url domain rest (acc ++ [stripFrag (urljoinM url href)]) := by
          simp only [extractLinksAux]
          rw [if_pos hpre, if_pos hadd]
        rw [heq] at hl
        refine ih (acc ++ [stripFrag (urljoinM url href)]) ?_ l hl
        intro x hx
        rcases List.mem_append.mp hx with hx | hx
        · exact hacc x hx
        · rw [List.mem_singleton.mp hx]
          have hne : stripFrag (urljoinM url href) ≠ "" := by
            have := (Bool.and_eq_true _ _).mp hadd
            simpa [bne_iff_ne] using this.1
          exact stripFrag_goodLink hdom hpre hne
      · have heq : extractLinksAux url domain (href :: rest) acc =
            extractLinksAux url domain rest acc := by
          simp only [extractLinksAux]
          rw [if_pos hpre, if_neg hadd]
        rw [heq] at hl
        exact ih acc hacc l hl
    · have heq : extractLinksAux url domain (href :: rest) acc =
          extractLinksAux url domain rest acc := by
        simp only [extractLinksAux]
        rw [if_neg hpre]
      rw [heq] at hl
      exact ih acc hacc l hl

theorem extractLinks_goodLink (url : String) (hrefs : List String) :
    ∀ l ∈ extractLinks url hrefs, goodLink (getDomain url) l := by
  intro l hl
  exact extractLinksAux_spec url (getDomain url) (getDomain_no_hash url) hrefs []
    (by simp) l hl

theorem htmlCrawl_links (env : CrawlEnv) (url : String) :
    ∀ l ∈ (htmlCrawl env url).links, goodLink (getDomain url) l := by
  intro l hl
  unfold htmlCrawl at hl
  split at hl
  · cases hl
  · rename_i page heq
    split at hl
    · exact extractLinks_goodLink url page.hrefs l hl
    · cases hl

theorem crawlAndIndex_links (env : CrawlEnv) (url : String) :
    ∀ l ∈ (crawlAndIndex env url).links, goodLink (getDomain url) l := by
  intro l hl
  unfold crawlAndIndex at hl
  split at hl
  · split at hl
    · rename_i t heq
      split at hl
      · split at hl <;> cases hl
      · exact htmlCrawl_links env url l hl
    · exact htmlCrawl_links env url l hl
  · exact htmlCrawl_links env url l hl

theorem crawlStep_enqueued (env : CrawlEnv) (st st' : CrawlState) (tr : StepTrace)
    (h : crawlStep env st = some (st', tr)) :
    ∀ l d, (l, d) ∈ tr.enqueued →
      ∃ url depth rest, st.queue = (url, depth) :: rest ∧ d = depth + 1 ∧
        strStartsWith l (getDomain url) = true := by
  intro l d hld
  unfold crawlStep at h
  split at h
  · cases h
  · rename_i url depth rest hq
    split at h
    · cases h
    · split at h
      · injection h with hpair
        injection hpair with hst htr
        rw [← htr] at hld
        cases hld
      · split at h
        · injection h with hpair
          injection hpair with hst htr
          rw [← htr] at hld
          cases hld
        · split at h
          · injection h with hpair
            injection hpair with hst htr
            rw [← htr] at hld
            have hld' : (l, d) ∈ newEnqueued env st url depth := hld
            unfold newEnqueued at hld'
            split at hld'
            · simp only [List.mem_map, List.mem_filter] at hld'
              obtain ⟨x, ⟨hx, -⟩, hxe⟩ := hld'
              injection hxe with hxl hxd
              refine ⟨url, depth, rest, hq, hxd.symm, ?_⟩
              rw [← hxl]
              exact (crawlAndIndex_links env url x hx).1
            · cases hld'
          · injection h with hpair
            injection hpair with hst htr
            rw [← htr] at hld
            cases hld

/-- The page and environment of the C4 counterexample: the page at
`https://example.com` links to `https://example.community/page`, a
different host that nevertheless passes the string-prefix domain check. -/
def c4Page : Page :=
  { titleText := some "T", bodyText := some "hello", docText := "hello",
    faviconHref := none, ogImage := none, imgTags := [],
    hrefs := ["https://example.community/page"] }

def c4Env : CrawlEnv :=
  { pdfSupport := true, pdfText := fun _ => none,
    fetch := fun u => if u = "https://example.com" then some c4Page else none,
    postOk := fun _ => true }

def c4State : CrawlState := ⟨[], [("https://example.com", 0)], 0, 0⟩

/-- Claim C4 counterexample: a link whose host (`example.community`)
differs from the source page's host (`example.com`) is nevertheless
enqueued, because the eligibility check is a string-prefix comparison on
`scheme://host`, not host equality. -/
theorem c4_counterexample :
    crawlStep c4Env c4State =
      some (⟨["https://example.com"], [("https://example.community/page", 1)], 1, 0⟩,
            ⟨some "https://example.com",
             some { url := "https://example.com", title := "T", content := "hello",
                    favicon_url := "", preview_image_url := "", images := [],
                    file_type := "html", is_safe := true },
             [("https://example.community/page", 1)]⟩) ∧
    (urlparseM "https://example.community/page").netloc ≠
      (urlparseM "https://example.com").netloc := by
  exact ⟨by rfl, by decide⟩

/-- Claim C4 amended: a discovered link is eligible for enqueueing iff
its absolutized, fragment-stripped form starts with the literal string
`scheme://host` of the source page — a prefix check that subsumes
same-scheme+host links but also admits any URL extending that prefix
(e.g. a longer host).  Every kept link is nonempty and fragment-free,
and every task enqueued by a BFS step comes from the dequeued page at
depth+1 with that prefix property. -/
theorem c4_amended_prefix_match :
    (∀ url hrefs, ∀ l ∈ extractLinks url hrefs,
      strStartsWith l (getDomain url) = true ∧ l ≠ "" ∧ ∀ c ∈ l.data, c ≠ '#') ∧
    (∀ env st st' tr, crawlStep env st = some (st', tr) →
      ∀ l d, (l, d) ∈ tr.enqueued →
        ∃ url depth rest, st.queue = (url, depth) :: rest ∧ d = depth + 1 ∧
          strStartsWith l (getDomain url) = true) := by
  constructor
  · intro url hrefs l hl
    exact extractLinks_goodLink url hrefs l hl
  · intro env st st' tr h l d hld
    exact crawlStep_enqueued env st st' tr h l d hld

/-- Witness for the amended claim C4: the cross-host link of the
counterexample is kept by `extract_links` and starts with the source
page's `scheme://host` string. -/
theorem c4_amended_prefix_match_witness :
    "https://example.community/page" ∈
      extractLinks "https://example.com" ["https://example.community/page"] ∧
    strStartsWith "https://example.community/page" (getDomain "https://example.com") = true := by
  refine ⟨by decide, ?_⟩
  exact (c4_amended_prefix_match.1 "https://example.com"
    ["https://example.community/page"] "https://example.community/page" (by decide)).1

theorem htmlCrawl_posted_html (env : CrawlEnv) (url : String) (d : Doc)
    (h : (htmlCrawl env url).posted = some d) : d.file_type = "html" := by
  unfold htmlCrawl at h
  split at h
  · cases h
  · rename_i page heq
    split at h <;>
    · injection h with h
      rw [← h]
      rfl

/-- The page and environment of the C5 counterexample: the PDF library
is unavailable, but the HTML fetch of the `.pdf` URL succeeds. -/
def c5Page : Page :=
  { titleText := some "T", bodyText := some "hello body", docText := "hello",
    faviconHref := none, ogImage := none, imgTags := [], hrefs := [] }

def c5Env : CrawlEnv :=
  { pdfSupport := false, pdfText := fun _ => none,
    fetch := fun u => if u = "https://x.example/file.pdf" then some c5Page else none,
    postOk := fun _ => true }

/-- Claim C5 counterexample: with the PDF extractor unavailable, a `.pdf`
URL is not left unindexed — the crawler falls through to the HTML path,
fetches the URL and indexes it as an `html` document. -/
theorem c5_counterexample :
    strEndsWith (pyLower "https://x.example/file.pdf") ".pdf" = true ∧
    c5Env.pdfSupport = false ∧
    crawlAndIndex c5Env "https://x.example/file.pdf" =
      ⟨true, [], some { url := "https://x.example/file.pdf", title := "T",
                        content := "hello body", favicon_url := "",
                        preview_image_url := "", images := [],
                        file_type := "html", is_safe := true }⟩ := by
  exact ⟨by rfl, by rfl, by rfl⟩

/-- Claim C5 amended: when the PDF extractor is unavailable or extraction
yields no text for a `.pdf` URL, no PDF document is produced; instead
control falls through to the generic HTML path, so the page is indexed
as an `html` document whenever the HTML fetch succeeds, and is left
unindexed only when that fetch fails as well. -/
theorem c5_amended_fallthrough : ∀ (env : CrawlEnv) (url : String),
    strEndsWith (pyLower url) ".pdf" = true →
    (env.pdfSupport = false ∨ env.pdfText url = none ∨ env.pdfText url = some "") →
    crawlAndIndex env url = htmlCrawl env url ∧
    (∀ d, (crawlAndIndex env url).posted = some d → d.file_type = "html") ∧
    (env.fetch url = none → (crawlAndIndex env url).posted = none) := by
  intro env url hpdf hfail
  have hmain : crawlAndIndex env url = htmlCrawl env url := by
    rcases hfail with h | h | h
    · simp [crawlAndIndex, h]
    · cases hs : env.pdfSupport <;> simp [crawlAndIndex, hpdf, hs, h]
    · cases hs : env.pdfSupport <;> simp [crawlAndIndex, hpdf, hs, h]
  refine ⟨hmain, ?_, ?_⟩
  · intro d hd
    rw [hmain] at hd
    exact htmlCrawl_posted_html env url d hd
  · intro hf
    rw [hmain]
    unfold htmlCrawl
    rw [hf]

/-- Witness for the amended claim C5 at the counterexample environment. -/
theorem c5_amended_fallthrough_witness :
    strEndsWith (pyLower "https://x.example/file.pdf") ".pdf" = true ∧
    c5Env.pdfSupport = false ∧
    crawlAndIndex c5Env "https://x.example/file.pdf" =
      htmlCrawl c5Env "https://x.example/file.pdf" := by
  refine ⟨by rfl, by rfl, ?_⟩
  exact (c5_amended_fallthrough c5Env "https://x.example/file.pdf"
    (by rfl) (Or.inl rfl)).1

/-- A 50,001-character content string. -/
def longContent : String := String.mk (List.replicate 50001 'a')

theorem longContent_length : longContent.length = 50001 := by
  show (String.mk (List.replicate 50001 'a')).length = 50001
  rw [String.length_mk, List.length_replicate]

/-- Claim C7 counterexample: the `/index-page` endpoint performs no
truncation — an authorized call with 50,001 characters of content stores
a document whose content exceeds the 50,000-character cap. -/
theorem c7_counterexample :
    indexPage (some "key") (some "key")
      { url := some "https://example.com/long", content := some longContent } =
      .ok { url := "https://example.com/long", title := "https://example.com/long",
            content := longContent, favicon_url := "", preview_image_url := "",
            images := [], file_type := "html",
            is_safe := isSafeContent longContent } ∧
    50000 < longContent.length := by
  refine ⟨by rfl, ?_⟩
  rw [longContent_length]
  omega

theorem strTake_length_le (s : String) (n : Nat) : (strTake s n).length ≤ n := by
  show (String.mk (s.data.take n)).length ≤ n
  rw [String.length_mk]
  exact List.length_take_le n s.data

theorem htmlContent_le (page : Page) : (htmlContent page).length ≤ 50000 := by
  unfold htmlContent
  split
  · exact strTake_length_le _ _
  · rename_i hgt
    omega

theorem htmlCrawl_posted_content (env : CrawlEnv) (url : String) (d : Doc)
    (h : (htmlCrawl env url).posted = some d) : d.content.length ≤ 50000 := by
  unfold htmlCrawl at h
  split at h
  · cases h
  · rename_i page heq
    split at h <;>
    · injection h with h
      rw [← h]
      exact htmlContent_le page

/-- Claim C7 amended: every document the crawler itself POSTs (PDF or
HTML path) has content at most 50,000 characters — truncation happens in
`crawl_and_index`; the `/index-page` endpoint, however, stores content
as received and does not itself enforce the cap. -/
theorem c7_amended_crawler_cap : ∀ (env : CrawlEnv) (url : String) (d : Doc),
    (crawlAndIndex env url).posted = some d → d.content.length ≤ 50000 := by
  intro env url d h
  unfold crawlAndIndex at h
  split at h
  · split at h
    · rename_i t heq
      split at h
      · split at h <;>
        · injection h with h
          rw [← h]
          exact strTake_length_le t 50000
      · exact htmlCrawl_posted_content env url d h
    · exact htmlCrawl_posted_content env url d h
  · exact htmlCrawl_posted_content env url d h

/-- The environment of the C7 witness: a PDF whose extracted text is
short, POSTed successfully. -/
def c7Env : CrawlEnv :=
  { pdfSupport := true, pdfText := fun _ => some "pdf text here",
    fetch := fun _ => none, postOk := fun _ => true }

/-- The document the C7 witness environment produces. -/
def c7Doc : Doc :=
  { url := "https://x.example/doc.pdf", title := "doc.pdf",
    content := "pdf text here", favicon_url := "", preview_image_url := "",
    images := [], file_type := "pdf", is_safe := true }

/-- Witness for the amended claim C7 at a concrete crawl. -/
theorem c7_amended_crawler_cap_witness :
    (crawlAndIndex c7Env "https://x.example/doc.pdf").posted = some c7Doc ∧
    c7Doc.content.length ≤ 50000 := by
  refine ⟨by rfl, ?_⟩
  exact c7_amended_crawler_cap c7Env "https://x.example/doc.pdf" c7Doc (by rfl)

/-- Witness for claim C8 at a concrete state holding one task at depth 3. -/
theorem c8_depth_skip_witness :
    MAX_DEPTH < 3 ∧
    crawlStep { pdfSupport := false, pdfText := fun _ => none, fetch := fun _ => none,
                postOk := fun _ => true }
      ⟨["a"], [("https://deep.example/x", 3)], 1, 0⟩ =
      some (⟨["a", "https://deep.example/x"], [], 1, 0⟩, ⟨none, none, []⟩) := by
  refine ⟨by decide, ?_⟩
  exact (c8_depth_skip
    { pdfSupport := false, pdfText := fun _ => none, fetch := fun _ => none,
      postOk := fun _ => true }
    ⟨["a"], [("https://deep.example/x", 3)], 1, 0⟩
    "https://deep.example/x" 3 [] rfl (by decide) (by decide) (by decide)).1

end Intell
